import Mathlib

/-!
Verification of the pipeline orchestrator in `src/main.py` of
`build-ml-pipeline-for-short-term-rental-prices`.

The orchestrator `go(config)` sets two environment variables, computes
`active_steps` from the selection expression `config['main']['steps']`
(`steps_par.split(",") if steps_par != "all" else _steps`), opens a
temporary directory, and then runs six guarded blocks in source order;
each block calls `mlflow.run(...)` when its step name is a member of
`active_steps`.  A failing `mlflow.run` raises, which aborts every later
block, while the `with tempfile.TemporaryDirectory()` context still
removes the temporary directory on that exit path.

The embedding below models the run as a trace of events (environment
writes, temporary-directory creation/removal, file writes, step-runner
invocations) plus a success flag; `mlflow.run` outcomes are supplied by
an oracle `outcome : String → Bool`, and a `false` outcome models the
raised `ExecutionException` that makes the process exit non-zero.
-/

/-- A scalar configuration value as it appears in the hydra config:
either a string or a number (only these occur at the leaves the
orchestrator reads; numbers are modelled as integers since the
orchestrator never computes with them, only forwards them). -/
inductive Scalar
  | str (s : String)
  | int (n : Int)
  deriving DecidableEq, Repr

/-- A filesystem path (or URL), as a list of components joined by `/`. -/
abbrev FsPath := List String

/-- A value in a step's parameter mapping: a scalar forwarded from the
configuration, or a filesystem path produced by the orchestrator. -/
inductive PVal
  | scalar (v : Scalar)
  | path (p : FsPath)
  deriving DecidableEq, Repr

/-- One observable action of the orchestrator process. -/
inductive Event
  | setEnv (key value : String)
  | tmpCreate (dir : FsPath)
  | fileWrite (path : FsPath) (content : String)
  | runStep (step : String) (location : FsPath) (entryPoint : String)
      (params : List (String × PVal))
  | tmpRemove (dir : FsPath)
  deriving DecidableEq, Repr

/-- `main.py` lines 20-27: the fixed step list used for `"all"`. -/
def _steps : List String :=
  ["download", "basic_cleaning", "data_check", "data_split", "train_random_forest"]

/-- The six guarded step blocks of `go`, in source order. -/
def goBlockNames : List String :=
  ["download", "basic_cleaning", "data_check", "data_split",
   "train_random_forest", "test_regression_model"]

/-- Python's `s.split(",")`, char by char: accumulates the current token
and starts a new one at each comma (so `""` splits to `[""]`). -/
def splitCommasAux : List Char → List Char → List (List Char)
  | [], acc => [acc.reverse]
  | c :: cs, acc =>
      if c = ',' then acc.reverse :: splitCommasAux cs []
      else splitCommasAux cs (c :: acc)

/-- Python's `steps_par.split(",")` from `main.py` line 49. -/
def splitCommas (s : String) : List String :=
  (splitCommasAux s.data []).map String.mk

/-- `main.py` line 49:
`active_steps = steps_par.split(",") if steps_par != "all" else _steps`. -/
def active_steps (steps_par : String) : List String :=
  if steps_par ≠ "all" then splitCommas steps_par else _steps

section Config

/-- `config['main']`: project identity, experiment grouping, component
repository location and the step-selection expression. -/
structure MainConfig where
  project_name : String
  experiment_name : String
  components_repository : FsPath
  steps : String
  deriving DecidableEq, Repr

/-- `config['etl']`. -/
structure EtlConfig where
  sample : Scalar
  min_price : Scalar
  max_price : Scalar
  deriving DecidableEq, Repr

/-- `config['parameters']['basic_cleaning']`. -/
structure BasicCleaningParams where
  input_artifact : Scalar
  output_artifact : Scalar
  artifact_type : Scalar
  artifact_description : Scalar
  deriving DecidableEq, Repr

/-- `config['parameters']['data_check']`. -/
structure DataCheckParams where
  csv : Scalar
  ref : Scalar
  deriving DecidableEq, Repr

/-- `config['parameters']['data_split']`. -/
structure DataSplitParams where
  input : Scalar
  deriving DecidableEq, Repr

/-- `config['parameters']['train_random_forest']`. -/
structure TrainRandomForestParams where
  trainval_artifact : Scalar
  output_artifact : Scalar
  deriving DecidableEq, Repr

/-- `config['parameters']['test_regression_model']`. -/
structure TestRegressionModelParams where
  mlflow_model : Scalar
  test_dataset : Scalar
  deriving DecidableEq, Repr

/-- `config['parameters']`. -/
structure ParametersConfig where
  basic_cleaning : BasicCleaningParams
  data_check : DataCheckParams
  data_split : DataSplitParams
  train_random_forest : TrainRandomForestParams
  test_regression_model : TestRegressionModelParams
  deriving DecidableEq, Repr

/-- `config['modeling']`; `random_forest` is the nested hyperparameter
sub-tree, kept as an association list in insertion order as
`DictConfig.items()` yields it. -/
structure ModelingConfig where
  test_size : Scalar
  val_size : Scalar
  random_seed : Scalar
  stratify_by : Scalar
  max_tfidf_features : Scalar
  random_forest : List (String × Scalar)
  deriving DecidableEq, Repr

/-- `config['data_check']`. -/
structure DataCheckConfig where
  kl_threshold : Scalar
  deriving DecidableEq, Repr

/-- The resolved hydra configuration read by `go`. -/
structure Config where
  main : MainConfig
  etl : EtlConfig
  parameters : ParametersConfig
  modeling : ModelingConfig
  data_check : DataCheckConfig
  deriving DecidableEq, Repr

end Config

section Json

/-- JSON escaping of one character as `json.dump` performs it for the
characters that can occur in configuration keys and values. -/
def jsonEscapeChar (c : Char) : String :=
  if c = '"' then "\\\""
  else if c = '\\' then "\\\\"
  else if c = '\n' then "\\n"
  else if c = '\t' then "\\t"
  else String.singleton c

/-- A JSON string literal. -/
def jsonStr (s : String) : String :=
  "\"" ++ String.join (s.data.map jsonEscapeChar) ++ "\""

/-- A JSON scalar. -/
def jsonScalar : Scalar → String
  | .str s => jsonStr s
  | .int n => toString n

/-- Python's `dict(pairs)`: key order is first occurrence, value is the
last occurrence for a repeated key. -/
def dictOfPairs (ps : List (String × Scalar)) : List (String × Scalar) :=
  ps.foldl
    (fun acc kv =>
      if acc.any (fun p => p.1 = kv.1)
      then acc.map (fun p => if p.1 = kv.1 then (p.1, kv.2) else p)
      else acc ++ [kv])
    []

/-- `json.dump` of a flat dict with the default separators
`(", ", ": ")`, as in `main.py` lines 118-122. -/
def jsonObj (ps : List (String × Scalar)) : String :=
  "\x7b" ++
    String.intercalate ", "
      (ps.map (fun p => jsonStr p.1 ++ ": " ++ jsonScalar p.2)) ++
  "\x7d"

end Json

/-- The parameter mapping of the `train_random_forest` invocation
(`main.py` lines 129-139); `rf_config` is the absolute path of the
serialized hyperparameter file. -/
def trainRandomForestParams (cfg : Config) (rf_config : FsPath) :
    List (String × PVal) :=
  [("trainval_artifact", .scalar cfg.parameters.train_random_forest.trainval_artifact),
   ("val_size", .scalar cfg.modeling.val_size),
   ("random_seed", .scalar cfg.modeling.random_seed),
   ("stratify_by", .scalar cfg.modeling.stratify_by),
   ("rf_config", .path rf_config),
   ("max_tfidf_features", .scalar cfg.modeling.max_tfidf_features),
   ("output_artifact", .scalar cfg.parameters.train_random_forest.output_artifact)]

/-- The six guarded blocks of `go` (`main.py` lines 54-153), in source
order: each entry is the guard string of the `if "..." in active_steps:`
test together with the events the block performs.  `origCwd` models
`hydra.utils.get_original_cwd()` and `cwd` the process working
directory, against which `os.path.abspath("rf_config.json")` resolves. -/
def stepBlocks (cfg : Config) (origCwd cwd : FsPath) :
    List (String × List Event) :=
  [("download",
    [.runStep "download" (cfg.main.components_repository ++ ["get_data"]) "main"
      [("sample", .scalar cfg.etl.sample),
       ("artifact_name", .scalar (.str "sample.csv")),
       ("artifact_type", .scalar (.str "raw_data")),
       ("artifact_description", .scalar (.str "Raw file as downloaded"))]]),
   ("basic_cleaning",
    [.runStep "basic_cleaning" (origCwd ++ ["src", "basic_cleaning"]) "main"
      [("input_artifact", .scalar cfg.parameters.basic_cleaning.input_artifact),
       ("output_artifact", .scalar cfg.parameters.basic_cleaning.output_artifact),
       ("artifact_type", .scalar cfg.parameters.basic_cleaning.artifact_type),
       ("artifact_description", .scalar cfg.parameters.basic_cleaning.artifact_description),
       ("min_price", .scalar cfg.etl.min_price),
       ("max_price", .scalar cfg.etl.max_price)]]),
   ("data_check",
    [.runStep "data_check" (origCwd ++ ["src", "data_check"]) "main"
      [("csv", .scalar cfg.parameters.data_check.csv),
       ("ref", .scalar cfg.parameters.data_check.ref),
       ("kl_threshold", .scalar cfg.data_check.kl_threshold),
       ("min_price", .scalar cfg.etl.min_price),
       ("max_price", .scalar cfg.etl.max_price)]]),
   ("data_split",
    [.runStep "data_split" (origCwd ++ ["components", "train_val_test_split"]) "main"
      [("input", .scalar cfg.parameters.data_split.input),
       ("test_size", .scalar cfg.modeling.test_size),
       ("random_seed", .scalar cfg.modeling.random_seed),
       ("stratify_by", .scalar cfg.modeling.stratify_by)]]),
   ("train_random_forest",
    [.fileWrite (cwd ++ ["rf_config.json"])
       (jsonObj (dictOfPairs cfg.modeling.random_forest)),
     .runStep "train_random_forest" (origCwd ++ ["src", "train_random_forest"]) "main"
       (trainRandomForestParams cfg (cwd ++ ["rf_config.json"]))]),
   ("test_regression_model",
    [.runStep "test_regression_model" (origCwd ++ ["components", "test_regression_model"]) "main"
      [("mlflow_model", .scalar cfg.parameters.test_regression_model.mlflow_model),
       ("test_dataset", .scalar cfg.parameters.test_regression_model.test_dataset)]])]

/-- Runs the guarded blocks in order.  A block whose guard string is not
in `active` is skipped; otherwise its events occur and the step-runner
outcome decides whether execution continues (`mlflow.run` raising an
`ExecutionException` on failure aborts every later block). -/
def runBlocks (active : List String) (outcome : String → Bool) :
    List (String × List Event) → List Event × Bool
  | [] => ([], true)
  | b :: rest =>
      if b.1 ∈ active then
        if outcome b.1 then
          let r := runBlocks active outcome rest
          (b.2 ++ r.1, r.2)
        else (b.2, false)
      else runBlocks active outcome rest

/-- The whole of `go` (`main.py` lines 32-153): environment setup, step
selection, then the guarded blocks inside the
`with tempfile.TemporaryDirectory() as tmp_dir:` context, whose cleanup
runs on every exit path (normal return or propagating exception).
Returns the event trace and `true` exactly when the process exits 0. -/
def go (cfg : Config) (origCwd cwd tmpDir : FsPath) (outcome : String → Bool) :
    List Event × Bool :=
  let active := active_steps cfg.main.steps
  let r := runBlocks active outcome (stepBlocks cfg origCwd cwd)
  ([.setEnv "WANDB_PROJECT" cfg.main.project_name,
    .setEnv "WANDB_RUN_GROUP" cfg.main.experiment_name,
    .tmpCreate tmpDir] ++ r.1 ++ [.tmpRemove tmpDir], r.2)

/-- The step names of the step-runner invocations in a trace, in order. -/
def invokedSteps (evs : List Event) : List String :=
  evs.filterMap fun e =>
    match e with
    | .runStep s _ _ _ => some s
    | _ => none

/-- Whether an event is a step-runner invocation. -/
def isRunStep : Event → Bool
  | .runStep _ _ _ _ => true
  | _ => false

/-- The selected-step plan executed under a given outcome oracle: steps
run in order while they succeed; the first failing step is still invoked
and everything after it is dropped. -/
def runPlan (outcome : String → Bool) : List String → List String
  | [] => []
  | s :: rest => if outcome s then s :: runPlan outcome rest else [s]

/-! ### General lemmas about the driver -/

theorem invokedSteps_append (l₁ l₂ : List Event) :
    invokedSteps (l₁ ++ l₂) = invokedSteps l₁ ++ invokedSteps l₂ := by
  simp [invokedSteps]

theorem stepBlocks_wf (cfg : Config) (origCwd cwd : FsPath) :
    ∀ b ∈ stepBlocks cfg origCwd cwd, invokedSteps b.2 = [b.1] := by
  intro b hb
  simp only [stepBlocks, List.mem_cons, List.not_mem_nil, or_false] at hb
  rcases hb with rfl | rfl | rfl | rfl | rfl | rfl <;> rfl

theorem stepBlocks_names (cfg : Config) (origCwd cwd : FsPath) :
    (stepBlocks cfg origCwd cwd).map Prod.fst = goBlockNames := rfl

theorem runBlocks_invoked (active : List String) (outcome : String → Bool) :
    ∀ blocks : List (String × List Event),
      (∀ b ∈ blocks, invokedSteps b.2 = [b.1]) →
      invokedSteps (runBlocks active outcome blocks).1
        = runPlan outcome ((blocks.map Prod.fst).filter (fun s => s ∈ active))
  | [], _ => by simp [runBlocks, runPlan, invokedSteps]
  | b :: rest, h => by
      have hb2 : invokedSteps b.2 = [b.1] := h b (by simp)
      have ih := runBlocks_invoked active outcome rest (fun x hx => h x (by simp [hx]))
      by_cases hmem : b.1 ∈ active
      · by_cases hout : outcome b.1
        · simp [runBlocks, hmem, hout, invokedSteps_append, hb2, ih, runPlan,
            List.filter_cons]
        · simp [runBlocks, hmem, hout, hb2, runPlan, List.filter_cons]
      · simp [runBlocks, hmem, ih, List.filter_cons]

theorem runBlocks_ok (active : List String) (outcome : String → Bool) :
    ∀ blocks : List (String × List Event),
      (runBlocks active outcome blocks).2
        = ((blocks.map Prod.fst).filter (fun s => s ∈ active)).all outcome
  | [] => by simp [runBlocks]
  | b :: rest => by
      have ih := runBlocks_ok active outcome rest
      by_cases hmem : b.1 ∈ active
      · by_cases hout : outcome b.1
        · simp [runBlocks, hmem, hout, ih, List.filter_cons]
        · simp [runBlocks, hmem, hout, List.filter_cons]
      · simp [runBlocks, hmem, ih, List.filter_cons]

theorem go_invoked (cfg : Config) (origCwd cwd tmpDir : FsPath)
    (outcome : String → Bool) :
    invokedSteps (go cfg origCwd cwd tmpDir outcome).1
      = runPlan outcome
          (goBlockNames.filter (fun s => s ∈ active_steps cfg.main.steps)) := by
  have h := runBlocks_invoked (active_steps cfg.main.steps) outcome
    (stepBlocks cfg origCwd cwd) (stepBlocks_wf cfg origCwd cwd)
  rw [stepBlocks_names] at h
  simp only [go, invokedSteps_append, invokedSteps, List.filterMap_cons,
    List.filterMap_nil, List.filterMap_append] at h ⊢
  simpa using h

theorem go_ok (cfg : Config) (origCwd cwd tmpDir : FsPath)
    (outcome : String → Bool) :
    (go cfg origCwd cwd tmpDir outcome).2
      = ((goBlockNames.filter (fun s => s ∈ active_steps cfg.main.steps)).all
          outcome) := by
  have h := runBlocks_ok (active_steps cfg.main.steps) outcome
    (stepBlocks cfg origCwd cwd)
  rw [stepBlocks_names] at h
  simpa [go] using h

theorem runPlan_all (outcome : String → Bool) :
    ∀ l : List String, (∀ s ∈ l, outcome s = true) → runPlan outcome l = l
  | [], _ => rfl
  | s :: rest, h => by
      have hs : outcome s = true := h s (by simp)
      simp [runPlan, hs, runPlan_all outcome rest (fun x hx => h x (by simp [hx]))]

theorem runPlan_fail (outcome : String → Bool) (s : String)
    (hs : outcome s = false) :
    ∀ (pre : List String), (∀ t ∈ pre, outcome t = true) →
      ∀ post, runPlan outcome (pre ++ s :: post) = pre ++ [s]
  | [], _, post => by simp [runPlan, hs]
  | t :: rest, h, post => by
      have ht : outcome t = true := h t (by simp)
      simp [runPlan, ht,
        runPlan_fail outcome s hs rest (fun x hx => h x (by simp [hx])) post]

theorem runPlan_sublist (outcome : String → Bool) :
    ∀ l : List String, List.Sublist (runPlan outcome l) l
  | [] => List.Sublist.refl []
  | s :: rest => by
      by_cases hs : outcome s
      · simpa [runPlan, hs] using (runPlan_sublist outcome rest).cons₂ s
      · simp only [runPlan, hs, Bool.false_eq_true, if_false]
        exact (List.nil_sublist rest).cons₂ s

/-! ### A concrete configuration for closed instances -/

/-- A concrete resolved configuration (values as in the repository's
`config.yaml` family), parameterized by the step-selection expression. -/
def cfgEx (stepsExpr : String) : Config :=
  { main :=
      { project_name := "nyc_airbnb"
        experiment_name := "development"
        components_repository :=
          ["https:", "", "github.com", "udacity", "components"]
        steps := stepsExpr }
    etl :=
      { sample := .str "sample1.csv"
        min_price := .int 10
        max_price := .int 350 }
    parameters :=
      { basic_cleaning :=
          { input_artifact := .str "sample.csv:latest"
            output_artifact := .str "clean_sample.csv"
            artifact_type := .str "clean_sample"
            artifact_description := .str "Data with outliers and null values removed" }
        data_check :=
          { csv := .str "clean_sample.csv:latest"
            ref := .str "clean_sample.csv:reference" }
        data_split := { input := .str "clean_sample.csv:latest" }
        train_random_forest :=
          { trainval_artifact := .str "trainval_data.csv:latest"
            output_artifact := .str "random_forest_export" }
        test_regression_model :=
          { mlflow_model := .str "random_forest_export:prod"
            test_dataset := .str "test_data.csv:latest" } }
    modeling :=
      { test_size := .str "0.2"
        val_size := .str "0.2"
        random_seed := .int 42
        stratify_by := .str "neighbourhood_group"
        max_tfidf_features := .int 5
        random_forest := [("n_estimators", .int 100), ("max_depth", .int 10)] }
    data_check := { kl_threshold := .str "0.2" } }

/-! ### C1 -/

/-- C1: for every selection expression that is a comma-separated list of
registered step identifiers, the step-runner invocations follow the
fixed registry order (download, basic_cleaning, data_check, data_split,
train_random_forest, test_regression_model) regardless of the order in
which the tokens appear in the expression. -/
theorem steps_run_in_registry_order (cfg : Config) (origCwd cwd tmpDir : FsPath)
    (outcome : String → Bool)
    (hall : cfg.main.steps ≠ "all")
    (_hreg : ∀ t ∈ splitCommas cfg.main.steps, t ∈ goBlockNames)
    (hok : ∀ s, outcome s = true) :
    invokedSteps (go cfg origCwd cwd tmpDir outcome).1
      = goBlockNames.filter (fun s => s ∈ splitCommas cfg.main.steps) := by
  rw [go_invoked]
  have hact : active_steps cfg.main.steps = splitCommas cfg.main.steps := by
    simp [active_steps, hall]
  rw [hact]
  exact runPlan_all outcome _ (fun s _ => hok s)

/-- C1 witness: tokens `"data_split,download"` cause `download` to run
before `data_split`. -/
theorem steps_run_in_registry_order_witness :
    invokedSteps (go (cfgEx "data_split,download") [] [] ["tmp", "t0"]
        (fun _ => true)).1
      = ["download", "data_split"] := by
  have h := steps_run_in_registry_order (cfgEx "data_split,download") [] []
    ["tmp", "t0"] (fun _ => true) (by decide) (by decide) (fun _ => rfl)
  rw [h]
  decide

/-! ### C2 -/

/-- C2: if the step-runner invocation at position `i` of the selected
sequence fails, the pipeline ends in an aborted (non-zero exit) state,
no step after position `i` is invoked, and no step is retried (every
step is invoked at most once). -/
theorem step_failure_aborts_pipeline (cfg : Config) (origCwd cwd tmpDir : FsPath)
    (outcome : String → Bool) (pre post : List String) (s : String)
    (hsel : goBlockNames.filter (fun t => t ∈ active_steps cfg.main.steps)
      = pre ++ s :: post)
    (hpre : ∀ t ∈ pre, outcome t = true)
    (hfail : outcome s = false) :
    invokedSteps (go cfg origCwd cwd tmpDir outcome).1 = pre ++ [s] ∧
    (go cfg origCwd cwd tmpDir outcome).2 = false ∧
    (invokedSteps (go cfg origCwd cwd tmpDir outcome).1).Nodup := by
  have hinv := go_invoked cfg origCwd cwd tmpDir outcome
  rw [hsel] at hinv
  have h1 : invokedSteps (go cfg origCwd cwd tmpDir outcome).1 = pre ++ [s] := by
    rw [hinv]
    exact runPlan_fail outcome s hfail pre hpre post
  refine ⟨h1, ?_, ?_⟩
  · rw [go_ok, hsel]
    simp [List.all_append, hfail]
  · rw [h1]
    have hnd : (goBlockNames.filter
        (fun t => t ∈ active_steps cfg.main.steps)).Nodup :=
      List.Nodup.filter _ (by decide)
    rw [hsel] at hnd
    exact hnd.sublist
      (List.Sublist.append_left ((List.nil_sublist post).cons₂ s) pre)

/-- C2 witness: with `"download,basic_cleaning"` selected and the
`basic_cleaning` run failing, exactly `download` then `basic_cleaning`
are invoked (once each) and the run exits non-zero. -/
theorem step_failure_aborts_pipeline_witness :
    invokedSteps (go (cfgEx "download,basic_cleaning") [] [] ["tmp", "t1"]
        (fun t => !(t == "basic_cleaning"))).1 = ["download", "basic_cleaning"] ∧
    (go (cfgEx "download,basic_cleaning") [] [] ["tmp", "t1"]
        (fun t => !(t == "basic_cleaning"))).2 = false ∧
    (invokedSteps (go (cfgEx "download,basic_cleaning") [] [] ["tmp", "t1"]
        (fun t => !(t == "basic_cleaning"))).1).Nodup :=
  step_failure_aborts_pipeline (cfgEx "download,basic_cleaning") [] [] ["tmp", "t1"]
    (fun t => !(t == "basic_cleaning")) ["download"] [] "basic_cleaning"
    (by decide) (by decide) (by decide)

/-! ### C3 -/

/-- C3 counterexample: selection `"bogus_step"` does not fail — the code
performs no validation of tokens, so the run completes with exit code 0
(no `UnknownStepIdentifier` error is ever raised) and zero step-runner
invocations. -/
theorem unknown_step_not_rejected_cex :
    (go (cfgEx "bogus_step") [] [] ["tmp", "t2"] (fun _ => true)).2 = true ∧
    invokedSteps (go (cfgEx "bogus_step") [] [] ["tmp", "t2"]
        (fun _ => true)).1 = [] := by
  exact ⟨by decide, by decide⟩

/-- C3 amended: a selection expression none of whose tokens is a
registered step identifier yields zero step-runner invocations, but no
error is raised: the unknown tokens are silently ignored and the run
exits 0. -/
theorem unknown_tokens_ignored (cfg : Config) (origCwd cwd tmpDir : FsPath)
    (outcome : String → Bool)
    (hall : cfg.main.steps ≠ "all")
    (hnone : ∀ t ∈ splitCommas cfg.main.steps, t ∉ goBlockNames) :
    invokedSteps (go cfg origCwd cwd tmpDir outcome).1 = [] ∧
    (go cfg origCwd cwd tmpDir outcome).2 = true := by
  have hact : active_steps cfg.main.steps = splitCommas cfg.main.steps := by
    simp [active_steps, hall]
  have hfilter :
      goBlockNames.filter (fun s => s ∈ active_steps cfg.main.steps) = [] := by
    rw [List.filter_eq_nil_iff]
    intro a ha
    rw [hact]
    simpa using fun hmem => hnone a hmem ha
  constructor
  · rw [go_invoked, hfilter]; rfl
  · rw [go_ok, hfilter]; rfl

/-- C3 amended, witness: selection `"bogus_step"`. -/
theorem unknown_tokens_ignored_witness :
    invokedSteps (go (cfgEx "bogus_step") [] [] ["tmp", "t3"]
        (fun _ => true)).1 = [] ∧
    (go (cfgEx "bogus_step") [] [] ["tmp", "t3"] (fun _ => true)).2 = true :=
  unknown_tokens_ignored (cfgEx "bogus_step") [] [] ["tmp", "t3"]
    (fun _ => true) (by decide) (by decide)

/-! ### C4 -/

/-- C4 counterexample: the "only if" direction of the claim fails — the
selection expression that lists every registered step explicitly is not
the string `"all"` yet yields exactly the full registered step list as
the active set, and its run invokes exactly the full list. -/
theorem all_sentinel_not_necessary_cex :
    active_steps
        "download,basic_cleaning,data_check,data_split,train_random_forest"
      = _steps ∧
    ("download,basic_cleaning,data_check,data_split,train_random_forest"
      ≠ "all") ∧
    invokedSteps (go
        (cfgEx "download,basic_cleaning,data_check,data_split,train_random_forest")
        [] [] ["tmp", "t4"] (fun _ => true)).1 = _steps := by
  exact ⟨by decide, by decide, by decide⟩

/-- C4 amended: if the selection expression is exactly `"all"`
(case-sensitive, exact match), the active step set is the full
registered step list `_steps` in registry order (and under successful
outcomes exactly those steps are invoked, in that order); the converse
does not hold, since listing every registered identifier explicitly
yields the same active set. -/
theorem all_selects_full_registry (cfg : Config) (origCwd cwd tmpDir : FsPath)
    (outcome : String → Bool)
    (h : cfg.main.steps = "all") (hok : ∀ s, outcome s = true) :
    active_steps cfg.main.steps = _steps ∧
    invokedSteps (go cfg origCwd cwd tmpDir outcome).1 = _steps := by
  have h1 : active_steps cfg.main.steps = _steps := by
    simp [active_steps, h]
  refine ⟨h1, ?_⟩
  rw [go_invoked, h1, runPlan_all outcome _ (fun s _ => hok s)]
  decide

/-- C4 amended, witness: the expression `"all"` on the concrete
configuration. -/
theorem all_selects_full_registry_witness :
    active_steps (cfgEx "all").main.steps = _steps ∧
    invokedSteps (go (cfgEx "all") [] [] ["tmp", "t5"] (fun _ => true)).1
      = _steps :=
  all_selects_full_registry (cfgEx "all") [] [] ["tmp", "t5"] (fun _ => true)
    rfl (fun _ => rfl)

/-! ### C5 -/

theorem runBlocks_reach (active : List String) (outcome : String → Bool) :
    ∀ (pre : List (String × List Event)) (name : String) (evs : List Event)
      (post : List (String × List Event)),
      (∀ b ∈ pre, b.1 ∈ active → outcome b.1 = true) →
      name ∈ active →
      ∃ l r, (runBlocks active outcome (pre ++ (name, evs) :: post)).1
        = l ++ (evs ++ r)
  | [], name, evs, post, _, hname => by
      by_cases ho : outcome name
      · exact ⟨[], (runBlocks active outcome post).1,
          by simp [runBlocks, hname, ho]⟩
      · exact ⟨[], [], by simp [runBlocks, hname, ho]⟩
  | b :: pre, name, evs, post, hpre, hname => by
      obtain ⟨l, r, hlr⟩ := runBlocks_reach active outcome pre name evs post
        (fun x hx h => hpre x (by simp [hx]) h) hname
      by_cases hb : b.1 ∈ active
      · have hob : outcome b.1 = true := hpre b (by simp) hb
        exact ⟨b.2 ++ l, r, by simp [runBlocks, hb, hob, hlr]⟩
      · exact ⟨l, r, by simp [runBlocks, hb, hlr]⟩

/-- C5: whenever `train_random_forest` is selected (and the steps before
it that were selected succeed, so the block is reached), the trace
contains the write of the serialized `modeling.random_forest` sub-tree
as a flat JSON document immediately followed by the
`train_random_forest` invocation, whose parameters carry the written
file's path as the value of `rf_config`. -/
theorem rf_config_file_and_param (cfg : Config) (origCwd cwd tmpDir : FsPath)
    (outcome : String → Bool)
    (hsel : "train_random_forest" ∈ active_steps cfg.main.steps)
    (hearlier : ∀ t ∈ ["download", "basic_cleaning", "data_check", "data_split"],
      outcome t = true) :
    (∃ l r, (go cfg origCwd cwd tmpDir outcome).1
        = l ++ ([Event.fileWrite (cwd ++ ["rf_config.json"])
                   (jsonObj (dictOfPairs cfg.modeling.random_forest)),
                 Event.runStep "train_random_forest"
                   (origCwd ++ ["src", "train_random_forest"]) "main"
                   (trainRandomForestParams cfg (cwd ++ ["rf_config.json"]))]
               ++ r)) ∧
    ("rf_config", PVal.path (cwd ++ ["rf_config.json"]))
      ∈ trainRandomForestParams cfg (cwd ++ ["rf_config.json"]) := by
  constructor
  · have hpre' : ∀ b ∈ (stepBlocks cfg origCwd cwd).take 4,
        b.1 ∈ active_steps cfg.main.steps → outcome b.1 = true := by
      intro b hb
      simp only [stepBlocks, List.take, List.mem_cons, List.not_mem_nil,
        or_false] at hb
      rcases hb with rfl | rfl | rfl | rfl <;> exact fun _ => hearlier _ (by simp)
    obtain ⟨l, r, h⟩ := runBlocks_reach (active_steps cfg.main.steps) outcome
      ((stepBlocks cfg origCwd cwd).take 4) "train_random_forest"
      [Event.fileWrite (cwd ++ ["rf_config.json"])
         (jsonObj (dictOfPairs cfg.modeling.random_forest)),
       Event.runStep "train_random_forest"
         (origCwd ++ ["src", "train_random_forest"]) "main"
         (trainRandomForestParams cfg (cwd ++ ["rf_config.json"]))]
      ((stepBlocks cfg origCwd cwd).drop 5) hpre' hsel
    have heq : (stepBlocks cfg origCwd cwd).take 4
        ++ ("train_random_forest",
            [Event.fileWrite (cwd ++ ["rf_config.json"])
               (jsonObj (dictOfPairs cfg.modeling.random_forest)),
             Event.runStep "train_random_forest"
               (origCwd ++ ["src", "train_random_forest"]) "main"
               (trainRandomForestParams cfg (cwd ++ ["rf_config.json"]))])
          :: (stepBlocks cfg origCwd cwd).drop 5
        = stepBlocks cfg origCwd cwd := rfl
    rw [heq] at h
    refine ⟨[Event.setEnv "WANDB_PROJECT" cfg.main.project_name,
             Event.setEnv "WANDB_RUN_GROUP" cfg.main.experiment_name,
             Event.tmpCreate tmpDir] ++ l, r ++ [Event.tmpRemove tmpDir], ?_⟩
    simp [go, h]
  · simp [trainRandomForestParams]

/-- C5 witness: the sub-tree `[("n_estimators", 100), ("max_depth", 10)]`
is serialized as the flat JSON document
`\x7b"n_estimators": 100, "max_depth": 10\x7d` into the file whose path is the
`rf_config` parameter value. -/
theorem rf_config_file_and_param_witness :
    ((∃ l r, (go (cfgEx "train_random_forest") ["home", "proj"]
          ["home", "proj", "outputs"] ["tmp", "t6"] (fun _ => true)).1
        = l ++ ([Event.fileWrite (["home", "proj", "outputs"] ++ ["rf_config.json"])
                   (jsonObj (dictOfPairs
                     (cfgEx "train_random_forest").modeling.random_forest)),
                 Event.runStep "train_random_forest"
                   (["home", "proj"] ++ ["src", "train_random_forest"]) "main"
                   (trainRandomForestParams (cfgEx "train_random_forest")
                     (["home", "proj", "outputs"] ++ ["rf_config.json"]))]
               ++ r)) ∧
     ("rf_config", PVal.path (["home", "proj", "outputs"] ++ ["rf_config.json"]))
       ∈ trainRandomForestParams (cfgEx "train_random_forest")
           (["home", "proj", "outputs"] ++ ["rf_config.json"])) ∧
    jsonObj (dictOfPairs (cfgEx "train_random_forest").modeling.random_forest)
      = "\x7b\"n_estimators\": 100, \"max_depth\": 10\x7d" :=
  ⟨rf_config_file_and_param (cfgEx "train_random_forest") ["home", "proj"]
     ["home", "proj", "outputs"] ["tmp", "t6"] (fun _ => true)
     (by decide) (by decide),
   by decide⟩

/-! ### C6 -/

/-- C6: for every run — full success, abort after a step failure, or any
outcome pattern — the scratch workspace is created before any
step-runner invocation and its removal is the last action of the run
(so the directory no longer exists when the run ends, on every exit
path the driver has). -/
theorem workspace_lifecycle (cfg : Config) (origCwd cwd tmpDir : FsPath)
    (outcome : String → Bool) :
    ((go cfg origCwd cwd tmpDir outcome).1).getLast?
      = some (Event.tmpRemove tmpDir) ∧
    ∀ i (hi : i < (go cfg origCwd cwd tmpDir outcome).1.length),
      isRunStep ((go cfg origCwd cwd tmpDir outcome).1.get ⟨i, hi⟩) = true →
      ∃ j, ∃ hj : j < (go cfg origCwd cwd tmpDir outcome).1.length, j < i ∧
        (go cfg origCwd cwd tmpDir outcome).1.get ⟨j, hj⟩
          = Event.tmpCreate tmpDir := by
  constructor
  · have hshape : (go cfg origCwd cwd tmpDir outcome).1
        = ([Event.setEnv "WANDB_PROJECT" cfg.main.project_name,
            Event.setEnv "WANDB_RUN_GROUP" cfg.main.experiment_name,
            Event.tmpCreate tmpDir] ++
           (runBlocks (active_steps cfg.main.steps) outcome
             (stepBlocks cfg origCwd cwd)).1)
          ++ [Event.tmpRemove tmpDir] := by
      simp [go]
    rw [hshape, List.getLast?_concat]
  · intro i hi hrun
    have hilen : 2 < (go cfg origCwd cwd tmpDir outcome).1.length := by
      simp [go]
    refine ⟨2, hilen, ?_, ?_⟩
    · match i with
      | 0 => simp [go, isRunStep] at hrun
      | 1 => simp [go, isRunStep] at hrun
      | 2 => simp [go, isRunStep] at hrun
      | (n + 3) => omega
    · simp [go]

/-- C6 witness: concrete run with `"all"` selected — the last event is
the workspace removal, and the workspace creation (index 2) happens
before the invocation at index 3. -/
theorem workspace_lifecycle_witness :
    ((go (cfgEx "all") [] [] ["tmp", "t7"] (fun _ => true)).1).getLast?
      = some (Event.tmpRemove ["tmp", "t7"]) ∧
    ∃ j, ∃ hj : j < (go (cfgEx "all") [] [] ["tmp", "t7"]
        (fun _ => true)).1.length, j < 3 ∧
      (go (cfgEx "all") [] [] ["tmp", "t7"] (fun _ => true)).1.get ⟨j, hj⟩
        = Event.tmpCreate ["tmp", "t7"] :=
  ⟨(workspace_lifecycle (cfgEx "all") [] [] ["tmp", "t7"] (fun _ => true)).1,
   (workspace_lifecycle (cfgEx "all") [] [] ["tmp", "t7"] (fun _ => true)).2
     3 (by decide) (by decide)⟩

/-! ### C7 -/

/-- The file paths written by a trace. -/
def fileWrites (evs : List Event) : List FsPath :=
  evs.filterMap fun e =>
    match e with
    | .fileWrite p _ => some p
    | _ => none

/-- Whether path `p` lies inside directory `d`. -/
def underDir (d p : FsPath) : Bool :=
  p.take d.length == d && d.length < p.length

/-- C7: at a run that selects `train_random_forest` (working directory
`/home/proj/outputs`, scratch workspace `/tmp/t8`), the one file the
orchestrator writes is `rf_config.json` resolved against the *working
directory* — `os.path.abspath("rf_config.json")` — not the scratch
workspace: `tmp_dir` is never used and no `chdir` into it happens, so
the file lies outside the workspace and survives its teardown,
contradicting the claim (and the source's own comment "Move to a
temporary directory"). -/
theorem rf_config_written_outside_workspace :
    fileWrites (go (cfgEx "train_random_forest") ["home", "proj"]
        ["home", "proj", "outputs"] ["tmp", "t8"] (fun _ => true)).1
      = [["home", "proj", "outputs", "rf_config.json"]] ∧
    (fileWrites (go (cfgEx "train_random_forest") ["home", "proj"]
        ["home", "proj", "outputs"] ["tmp", "t8"] (fun _ => true)).1).all
      (fun p => !underDir ["tmp", "t8"] p) = true := by
  exact ⟨by decide, by decide⟩

/-! ### C8 -/

/-- C8 counterexample: `"download, data_split"` and
`"download,data_split"` do not select the same active step set — the
code never trims tokens, so the token `" data_split"` (with its leading
space) matches nothing and only `download` runs, while the space-free
expression runs both steps. -/
theorem tokens_not_trimmed_cex :
    invokedSteps (go (cfgEx "download, data_split") [] [] ["tmp", "t9"]
        (fun _ => true)).1 = ["download"] ∧
    invokedSteps (go (cfgEx "download,data_split") [] [] ["tmp", "t10"]
        (fun _ => true)).1 = ["download", "data_split"] := by
  exact ⟨by decide, by decide⟩

/-- C8 amended: when the selection expression is not `"all"` it is split
on commas and each token is matched *verbatim* — no whitespace trimming
— against the step identifiers, so the steps run are exactly the
registered identifiers that occur verbatim among the tokens (hence
`"download, data_split"` selects only `download`, unlike
`"download,data_split"`). -/
theorem split_without_trim (cfg : Config) (origCwd cwd tmpDir : FsPath)
    (outcome : String → Bool)
    (hall : cfg.main.steps ≠ "all") (hok : ∀ s, outcome s = true) :
    active_steps cfg.main.steps = splitCommas cfg.main.steps ∧
    invokedSteps (go cfg origCwd cwd tmpDir outcome).1
      = goBlockNames.filter (fun s => s ∈ splitCommas cfg.main.steps) := by
  have hact : active_steps cfg.main.steps = splitCommas cfg.main.steps := by
    simp [active_steps, hall]
  refine ⟨hact, ?_⟩
  rw [go_invoked, hact]
  exact runPlan_all outcome _ (fun s _ => hok s)

/-- C8 amended, witness: the whitespace-bearing expression selects only
`download`. -/
theorem split_without_trim_witness :
    active_steps (cfgEx "download, data_split").main.steps
      = splitCommas (cfgEx "download, data_split").main.steps ∧
    invokedSteps (go (cfgEx "download, data_split") [] [] ["tmp", "t11"]
        (fun _ => true)).1
      = goBlockNames.filter
          (fun s => s ∈ splitCommas (cfgEx "download, data_split").main.steps) :=
  split_without_trim (cfgEx "download, data_split") [] [] ["tmp", "t11"]
    (fun _ => true) (by decide) (fun _ => rfl)

/-! ### C9 -/

theorem splitCommasAux_chars :
    ∀ (cs acc : List Char) (t : List Char),
      t ∈ splitCommasAux cs acc → ∀ c ∈ t, c ∈ acc ∨ c ∈ cs
  | [], acc, t, ht, c, hc => by
      simp only [splitCommasAux, List.mem_singleton] at ht
      subst ht
      exact Or.inl (List.mem_reverse.1 hc)
  | a :: cs, acc, t, ht, c, hc => by
      by_cases ha : a = ','
      · simp only [splitCommasAux, ha, if_true, List.mem_cons] at ht
        rcases ht with rfl | ht
        · exact Or.inl (List.mem_reverse.1 hc)
        · rcases splitCommasAux_chars cs [] t ht c hc with h | h
          · simp at h
          · exact Or.inr (by simp [h])
      · simp only [splitCommasAux, ha, if_false] at ht
        rcases splitCommasAux_chars cs (a :: acc) t ht c hc with h | h
        · rcases List.mem_cons.1 h with rfl | h
          · exact Or.inr (by simp)
          · exact Or.inl h
        · exact Or.inr (by simp [h])

/-- Every character of a token produced by `splitCommas` is a character
of the split string. -/
theorem token_chars_subset (s t : String) (ht : t ∈ splitCommas s) :
    ∀ c ∈ t.data, c ∈ s.data := by
  obtain ⟨l, hl, rfl⟩ := List.mem_map.1 ht
  intro c hc
  rcases splitCommasAux_chars s.data [] l hl c hc with h | h
  · simp at h
  · exact h

/-- A token of a whitespace-only expression cannot be a step name that
contains a non-whitespace character. -/
theorem ws_token_no_match (s n : String)
    (hws : ∀ c ∈ s.data, c.isWhitespace = true)
    (hmem : n ∈ splitCommas s) (c : Char) (hc : c ∈ n.data)
    (hcws : c.isWhitespace = false) : False := by
  have := hws c (token_chars_subset s n hmem c hc)
  rw [this] at hcws
  exact Bool.noConfusion hcws

/-- C9: a selection expression that is empty after trimming (every
character is whitespace, which includes the empty expression) makes the
run a no-op: the active subset of registered steps is empty, no
step-runner invocation occurs, and the process exits 0 whatever the
outcome oracle would have said. -/
theorem empty_selection_noop (cfg : Config) (origCwd cwd tmpDir : FsPath)
    (outcome : String → Bool)
    (hws : ∀ c ∈ cfg.main.steps.data, c.isWhitespace = true) :
    goBlockNames.filter (fun s => s ∈ active_steps cfg.main.steps) = [] ∧
    invokedSteps (go cfg origCwd cwd tmpDir outcome).1 = [] ∧
    (go cfg origCwd cwd tmpDir outcome).2 = true := by
  have hall : cfg.main.steps ≠ "all" := by
    intro h
    have h2 := hws 'a' (by rw [h]; decide)
    exact absurd h2 (by decide)
  have hact : active_steps cfg.main.steps = splitCommas cfg.main.steps := by
    simp [active_steps, hall]
  have hfilter :
      goBlockNames.filter (fun s => s ∈ active_steps cfg.main.steps) = [] := by
    rw [List.filter_eq_nil_iff]
    intro n hn
    simp only [hact, decide_eq_true_eq]
    intro hmem
    fin_cases hn
    · exact ws_token_no_match _ _ hws hmem 'd' (by decide) (by decide)
    · exact ws_token_no_match _ _ hws hmem 'b' (by decide) (by decide)
    · exact ws_token_no_match _ _ hws hmem 'd' (by decide) (by decide)
    · exact ws_token_no_match _ _ hws hmem 'd' (by decide) (by decide)
    · exact ws_token_no_match _ _ hws hmem 't' (by decide) (by decide)
    · exact ws_token_no_match _ _ hws hmem 't' (by decide) (by decide)
  refine ⟨hfilter, ?_, ?_⟩
  · rw [go_invoked, hfilter]; rfl
  · rw [go_ok, hfilter]; rfl

/-- C9 witness: the empty expression. -/
theorem empty_selection_noop_witness :
    goBlockNames.filter (fun s => s ∈ active_steps (cfgEx "").main.steps) = [] ∧
    invokedSteps (go (cfgEx "") [] [] ["tmp", "t12"] (fun _ => true)).1 = [] ∧
    (go (cfgEx "") [] [] ["tmp", "t12"] (fun _ => true)).2 = true :=
  empty_selection_noop (cfgEx "") [] [] ["tmp", "t12"] (fun _ => true)
    (by decide)

/-! ### C10 -/

/-- C10: the fixed step list `_steps` used for the `"all"` sentinel
excludes `test_regression_model`, so a `test_regression_model`
invocation can occur only when the selection expression is not `"all"`
and contains the literal token `"test_regression_model"`. -/
theorem test_regression_model_only_explicit :
    "test_regression_model" ∉ _steps ∧
    ∀ (cfg : Config) (origCwd cwd tmpDir : FsPath) (outcome : String → Bool),
      "test_regression_model" ∈ invokedSteps (go cfg origCwd cwd tmpDir outcome).1 →
      cfg.main.steps ≠ "all" ∧
      "test_regression_model" ∈ splitCommas cfg.main.steps := by
  refine ⟨by decide, ?_⟩
  intro cfg origCwd cwd tmpDir outcome hmem
  rw [go_invoked] at hmem
  have hsub := (runPlan_sublist outcome _).subset hmem
  have hact : "test_regression_model" ∈ active_steps cfg.main.steps := by
    have h := List.of_mem_filter hsub
    simpa using h
  by_cases hall : cfg.main.steps = "all"
  · rw [active_steps, hall] at hact
    simp only [ne_eq, not_true_eq_false, if_false] at hact
    exact absurd hact (by decide)
  · refine ⟨hall, ?_⟩
    rw [active_steps, if_pos hall] at hact
    exact hact

/-- C10 witness: with the explicit token, the step is invoked and the
consequent holds. -/
theorem test_regression_model_only_explicit_witness :
    "test_regression_model" ∉ _steps ∧
    ((cfgEx "test_regression_model").main.steps ≠ "all" ∧
     "test_regression_model"
       ∈ splitCommas (cfgEx "test_regression_model").main.steps) :=
  ⟨test_regression_model_only_explicit.1,
   test_regression_model_only_explicit.2 (cfgEx "test_regression_model")
     [] [] ["tmp", "t13"] (fun _ => true) (by decide)⟩
